import Mathlib

/-!
Verification of the Audacity mixing/resampling engine specification against
the source of `src/Resample.cpp` and the Mixer interface of `src/Mix.h`.

The resampling library libsoxr is an external collaborator: the spec treats
it as an opaque black-box streaming converter, so it is embedded here as an
abstract interface (`SoxrLib`) together with two concrete instances used in
the theorems: a call-recording instance (`spyLib`) that makes visible which
arguments the wrapper passes down, and a reference instance (`refLib`)
satisfying the documented streaming contract.

Machine integers: `size_t` is 64 bits; the bitwise complement used as the
end-of-input sentinel is modelled on `Nat` explicitly modulo `2 ^ 64`.
`double` values (factors, times, rates) are modelled as `ℚ`.
-/

/-- The two arguments of `soxr_quality_spec` (recipe, flags) that
`Resample::Resample` passes to `soxr_create` (Resample.cpp:40,45,47). -/
structure QSpec where
  recipe : Nat
  flags : Nat
deriving DecidableEq, Repr

/-- soxr.h: `SOXR_HQ` is quality recipe 4 (`SOXR_20_BITQ`). -/
def SOXR_HQ : Nat := 4

/-- soxr.h: `SOXR_VR` is quality flag 32 (variable-rate resampling). -/
def SOXR_VR : Nat := 32

/-- Resample.cpp:40 — the constant-rate recipe is selected by indexing the
string literal `"\0\1\4\6"` with `mMethod` (out-of-range indices read the
terminating NUL, as the C expression would). -/
def recipeOfMethod (m : Nat) : Nat := [0, 1, 4, 6].getD m 0

/-- Bitwise complement of a 64-bit `size_t` value (the C expression
`~inBufferLen` at Resample.cpp:117,124). -/
def comp64 (n : Nat) : Nat := 2 ^ 64 - 1 - n % 2 ^ 64

/-- The raw input-length word handed to `soxr_process`: the complement of
`inBufferLen` when `lastFlag` is set, `inBufferLen` itself otherwise
(Resample.cpp:117,124). -/
def rawInLen (lastFlag : Bool) (inBufferLen : Nat) : Nat :=
  if lastFlag then comp64 inBufferLen else inBufferLen

/-- libsoxr's decoding of the input-length word: a word with the top bit set
(negative as `ptrdiff_t`) marks end of input, and its complement is the
actual sample count.  Returns (actual length, end-of-input flag). -/
def decodeIlen (raw : Nat) : Nat × Bool :=
  if 2 ^ 63 ≤ raw % 2 ^ 64 then (comp64 raw, true) else (raw % 2 ^ 64, false)

/-- Abstract interface of the external converter library, restricted to the
three entry points `Resample.cpp` uses.  `σ` is the converter state behind a
`soxr_t` handle, `S` the sample type.

* `create inRate outRate q` models `soxr_create(inRate, outRate, 1, 0, 0, &q, 0)`;
  `none` is a NULL return (creation failure).
* `setIoRatio h r` models `soxr_set_io_ratio(h, r, 0)`; by the soxr API the
  argument `r` is the input-rate over output-rate (input:output) ratio.
* `process h in rawIlen olen` models
  `soxr_process(h, in, rawIlen, &idone, out, olen, &odone)`; it returns the
  new state, `idone`, `odone`, and the samples written to `out`. -/
structure SoxrLib (σ S : Type) where
  create : ℚ → ℚ → QSpec → Option σ
  setIoRatio : σ → ℚ → σ
  process : σ → List S → Nat → Nat → σ × Nat × Nat × List S

/-- An external, persisted preferences store: a key/value map read through
`EnumSetting`.  Values are indices into the setting's symbol table. -/
def PrefsStore : Type := String → Option Nat

/-- The fields of an `EnumSetting` that matter to quality resolution
(Resample.cpp:85-102). -/
structure EnumSetting where
  key : String
  symbolCount : Nat
  defaultIdx : Nat
  oldKey : String

/-- Modelled from the spec: `EnumSetting::ReadInt` lives in Prefs.h, which is
not under src.  Per the spec (§6), each quality setting is "persisted
externally" and resolves to "one of four discrete quality levels", falling
back to its default; a stored value outside the symbol table also yields the
default. -/
def EnumSetting.ReadInt (es : EnumSetting) (store : PrefsStore) : Nat :=
  match store es.key with
  | some v => if v < es.symbolCount then v else es.defaultIdx
  | none => es.defaultIdx

/-- Resample.cpp:62 — four discrete method symbols (Low/Medium/High/Best). -/
def numMethods : Nat := 4

/-- Resample.cpp:64. -/
def fastMethodKey : String := "/Quality/LibsoxrSampleRateConverterChoice"

/-- Resample.cpp:67. -/
def bestMethodKey : String := "/Quality/LibsoxrHQSampleRateConverterChoice"

/-- Resample.cpp:70. -/
def oldFastMethodKey : String := "/Quality/LibsoxrSampleRateConverter"

/-- Resample.cpp:73. -/
def oldBestMethodKey : String := "/Quality/LibsoxrHQSampleRateConverter"

/-- Resample.cpp:76 — default of the "fast" setting is 1, Medium Quality. -/
def fastMethodDefault : Nat := 1

/-- Resample.cpp:77 — default of the "best" setting is 3, Best Quality. -/
def bestMethodDefault : Nat := 3

/-- The member state of class `Resample`: `mMethod`, the constant-rate flag,
and the (possibly NULL) `soxr_t` handle. -/
structure Resample (σ : Type) where
  mMethod : Nat
  mbWantConstRateResampling : Bool
  mHandle : Option σ
deriving DecidableEq

/-- Resample.cpp:85 — `Resample::FastMethodSetting`. -/
def Resample.FastMethodSetting : EnumSetting :=
  ⟨fastMethodKey, numMethods, fastMethodDefault, oldFastMethodKey⟩

/-- Resample.cpp:94 — `Resample::BestMethodSetting`. -/
def Resample.BestMethodSetting : EnumSetting :=
  ⟨bestMethodKey, numMethods, bestMethodDefault, oldBestMethodKey⟩

/-- Resample.cpp:132-138 — `Resample::SetMethod`: the value stored into
`mMethod`, read from exactly one of the two settings. -/
def Resample.SetMethod (useBestMethod : Bool) (store : PrefsStore) : Nat :=
  if useBestMethod then Resample.BestMethodSetting.ReadInt store
  else Resample.FastMethodSetting.ReadInt store

/-- Resample.cpp:33-48 — the `Resample` constructor, parametric in the
converter library implementation and in the preferences store visible at
construction time. -/
def Resample.construct {σ S : Type} (lib : SoxrLib σ S) (store : PrefsStore)
    (useBestMethod : Bool) (dMinFactor dMaxFactor : ℚ) : Resample σ :=
  let mMethod := Resample.SetMethod useBestMethod store
  if dMinFactor = dMaxFactor then
    { mMethod := mMethod
      mbWantConstRateResampling := true
      mHandle := lib.create 1 dMinFactor ⟨recipeOfMethod mMethod, 0⟩ }
  else
    { mMethod := mMethod
      mbWantConstRateResampling := false
      mHandle := lib.create 1 dMinFactor ⟨SOXR_HQ, SOXR_VR⟩ }

/-- Resample.cpp:105-130 — `Resample::Process`.  Returns the updated object,
the pair `{idone, odone}` (consumed, produced) that the C++ returns, and the
samples written to `outBuffer`.

The `none` branch is modelled from the spec: on a failed (NULL) handle,
`soxr_process` reports an error that the wrapper ignores, and per the spec
(§4.1) `Process` "degrades to produced 0" rather than failing. -/
def Resample.Process {σ S : Type} (lib : SoxrLib σ S) (r : Resample σ)
    (factor : ℚ) (inBuffer : List S) (inBufferLen : Nat) (lastFlag : Bool)
    (outBufferLen : Nat) : Resample σ × (Nat × Nat) × List S :=
  match r.mHandle with
  | none => (r, (0, 0), [])
  | some h =>
    if r.mbWantConstRateResampling then
      let t := lib.process h inBuffer (rawInLen lastFlag inBufferLen) outBufferLen
      ({ r with mHandle := some t.1 }, (t.2.1, t.2.2.1), t.2.2.2)
    else
      let h1 := lib.setIoRatio h (1 / factor)
      let t := lib.process h1 inBuffer (rawInLen lastFlag inBufferLen) outBufferLen
      ({ r with mHandle := some t.1 }, (t.2.1, t.2.2.1), t.2.2.2)

/-- Modelled from the spec: Resample.h is not under src; per the spec (§4.1,
§7) a construction failure of the underlying converter "must be observable
before first `Process()` call", i.e. the object exposes whether its handle
is valid. -/
def Resample.ok {σ : Type} (r : Resample σ) : Bool := r.mHandle.isSome

/-- Events recorded by the call-recording library instance. -/
inductive SoxrEvent
  | setRatio (ioRatio : ℚ)
  | processCall (rawIlen olen : Nat)
deriving DecidableEq, Repr

/-- A converter library whose state is the list of calls made to it, in
order.  It produces nothing; it only records which arguments reach the
external library. -/
def spyLib (S : Type) : SoxrLib (List SoxrEvent) S :=
  { create := fun _ _ _ => some []
    setIoRatio := fun h q => h ++ [SoxrEvent.setRatio q]
    process := fun h _ raw olen => (h ++ [SoxrEvent.processCall raw olen], 0, 0, []) }

/-- State of the reference converter: the current input:output ratio, the
quality it was created with, and the internally buffered (delayed) samples. -/
structure RefState (S : Type) where
  ioRatio : ℚ
  quality : QSpec
  pending : List S
deriving DecidableEq, Repr

/-- Reference behaviour of `soxr_process`: decode the length word, consume
the offered input into the internal buffer, and emit buffered samples.
Without the end-of-input flag one sample is held back (internal delay);
with it, everything buffered is flushed to the output. -/
def refProcess {S : Type} (h : RefState S) (inBuf : List S) (raw olen : Nat) :
    RefState S × Nat × Nat × List S :=
  let dec := decodeIlen raw
  let idone := min dec.1 inBuf.length
  let total := h.pending ++ inBuf.take idone
  let out := if dec.2 then total.take olen
             else total.take (min olen (total.length - 1))
  ({ h with pending := total.drop out.length }, idone, out.length, out)

/-- A reference converter library satisfying the documented soxr streaming
contract.  Creation fails (returns NULL) when the requested output rate is
zero, as `soxr_create` rejects invalid parameters. -/
def refLib (S : Type) : SoxrLib (RefState S) S :=
  { create := fun inRate outRate q =>
      if outRate = 0 then none else some ⟨inRate / outRate, q, []⟩
    setIoRatio := fun h q => { h with ioRatio := q }
    process := refProcess }

/-- An empty preferences store (no persisted values: both settings read
their defaults). -/
def emptyStore : PrefsStore := fun _ => none

/-- The documented bounds of the soxr streaming contract: `idone` never
exceeds the (decoded) input length, `odone` never exceeds `olen`, and
exactly `odone` samples are written to the output buffer. -/
def SoxrProcessBounds {σ S : Type} (lib : SoxrLib σ S) : Prop :=
  ∀ h inBuf raw olen,
    (lib.process h inBuf raw olen).2.1 ≤ (decodeIlen raw).1 ∧
    (lib.process h inBuf raw olen).2.2.1 ≤ olen ∧
    (lib.process h inBuf raw olen).2.2.2.length = (lib.process h inBuf raw olen).2.2.1

/-! ## Helper lemmas -/

theorem decode_rawInLen (b : Bool) (n : Nat) (hn : n < 2 ^ 63) :
    decodeIlen (rawInLen b n) = (n, b) := by
  have h64 : n % 2 ^ 64 = n := Nat.mod_eq_of_lt (by omega)
  have hc : (2 ^ 64 - 1 - n % 2 ^ 64) % 2 ^ 64 = 2 ^ 64 - 1 - n :=
    by rw [h64]; exact Nat.mod_eq_of_lt (by omega)
  cases b
  · show decodeIlen n = (n, false)
    unfold decodeIlen
    rw [if_neg (by omega), h64]
  · show decodeIlen (comp64 n) = (n, true)
    unfold decodeIlen comp64
    rw [hc, if_pos (by omega)]
    simp only [Prod.mk.injEq, and_true]
    omega

theorem refLib_bounds (S : Type) : SoxrProcessBounds (refLib S) := by
  intro h inBuf raw olen
  refine ⟨Nat.le_trans (Nat.min_le_left _ _) (le_refl _), ?_, rfl⟩
  simp only [refLib, refProcess]
  split
  · exact (List.length_take _ _).trans_le (Nat.min_le_left _ _)
  · exact (List.length_take _ _).trans_le
      (le_trans (Nat.min_le_left _ _) (Nat.min_le_left _ _))

/-! ## Claim theorems -/

/-- C1 counterexample: the claim says the `factor` argument is re-applied as
the instantaneous input:output ratio.  In variable-ratio mode with
`factor = 2`, the ratio handed to `soxr_set_io_ratio` (whose argument is the
input-rate over output-rate ratio) is `1/2` — the reciprocal of the factor —
not `2` (Resample.cpp:122 passes `1/factor`). -/
theorem Resample.process_ioRatio_counterexample :
    (Resample.Process (spyLib ℚ) (Resample.construct (spyLib ℚ) emptyStore false 1 2)
        2 [] 0 false 0).1.mHandle
      = some [SoxrEvent.setRatio (1 / 2), SoxrEvent.processCall 0 0]
    ∧ ((1 : ℚ) / 2) ≠ 2 :=
  ⟨rfl, by norm_num⟩

/-- C1 (amended): for every call to `Resample::Process`, in constant-ratio
mode the per-call `factor` is ignored — the result is identical for any two
factors under every library implementation, and no ratio-setting call
reaches the converter, so the ratio fixed at construction stays in force; in
variable-ratio mode the reciprocal `1/factor` is applied as the
instantaneous input:output (input-rate over output-rate) ratio of the
underlying converter, before the samples of that call are processed. -/
theorem Resample.process_factor_handling :
    (∀ (σ S : Type) (lib : SoxrLib σ S) (r : Resample σ) (f g : ℚ)
        (inB : List S) (n : Nat) (b : Bool) (m : Nat),
        r.mbWantConstRateResampling = true →
        Resample.Process lib r f inB n b m = Resample.Process lib r g inB n b m)
    ∧ (∀ (S : Type) (meth : Nat) (tr : List SoxrEvent) (f : ℚ) (inB : List S)
        (n : Nat) (b : Bool) (m : Nat),
        (Resample.Process (spyLib S) ⟨meth, true, some tr⟩ f inB n b m).1.mHandle
          = some (tr ++ [SoxrEvent.processCall (rawInLen b n) m]))
    ∧ (∀ (S : Type) (meth : Nat) (tr : List SoxrEvent) (f : ℚ) (inB : List S)
        (n : Nat) (b : Bool) (m : Nat),
        (Resample.Process (spyLib S) ⟨meth, false, some tr⟩ f inB n b m).1.mHandle
          = some (tr ++ [SoxrEvent.setRatio (1 / f),
                         SoxrEvent.processCall (rawInLen b n) m])) := by
  refine ⟨?_, ?_, ?_⟩
  · intro σ S lib r f g inB n b m hconst
    cases hr : r.mHandle <;> simp [Resample.Process, hr, hconst]
  · intro S meth tr f inB n b m
    simp [Resample.Process, spyLib]
  · intro S meth tr f inB n b m
    simp [Resample.Process, spyLib]

/-- C1 witness: the constant-ratio part applied at a concrete converter state
with factors 2 and 7. -/
theorem Resample.process_factor_handling_witness :
    Resample.Process (refLib ℚ) ⟨3, true, some ⟨1, ⟨4, 0⟩, []⟩⟩ 2 [5] 1 false 4
      = Resample.Process (refLib ℚ) ⟨3, true, some ⟨1, ⟨4, 0⟩, []⟩⟩ 7 [5] 1 false 4 :=
  Resample.process_factor_handling.1 _ _ (refLib ℚ) _ 2 7 [5] 1 false 4 rfl

/-- C2: the constructor puts the converter into constant-ratio mode exactly
when the two bounds are equal, in which case the converter is created with
the discrete quality recipe selected by the persisted setting (and `mMethod`
records that selection); with unequal bounds it is put into variable-ratio
mode, created with the variable-rate profile. -/
theorem Resample.construct_mode_selection :
    ∀ (σ S : Type) (lib : SoxrLib σ S) (store : PrefsStore) (ub : Bool)
      (f1 f2 : ℚ),
      ((Resample.construct lib store ub f1 f2).mbWantConstRateResampling
          = decide (f1 = f2))
      ∧ (f1 = f2 →
          (Resample.construct lib store ub f1 f2).mHandle
            = lib.create 1 f1 ⟨recipeOfMethod (Resample.SetMethod ub store), 0⟩
          ∧ (Resample.construct lib store ub f1 f2).mMethod
            = Resample.SetMethod ub store)
      ∧ (f1 ≠ f2 →
          (Resample.construct lib store ub f1 f2).mbWantConstRateResampling = false
          ∧ (Resample.construct lib store ub f1 f2).mHandle
            = lib.create 1 f1 ⟨SOXR_HQ, SOXR_VR⟩) := by
  intro σ S lib store ub f1 f2
  by_cases h : f1 = f2 <;> simp [Resample.construct, h]

/-- C2 witness: equal bounds (2, 2) give constant-ratio mode with the preset
recipe; unequal bounds (1, 2) give the variable-rate profile. -/
theorem Resample.construct_mode_selection_witness :
    ((Resample.construct (refLib ℚ) emptyStore true 2 2).mHandle
        = (refLib ℚ).create 1 2 ⟨recipeOfMethod (Resample.SetMethod true emptyStore), 0⟩)
    ∧ ((Resample.construct (refLib ℚ) emptyStore true 1 2).mHandle
        = (refLib ℚ).create 1 1 ⟨SOXR_HQ, SOXR_VR⟩) :=
  ⟨((Resample.construct_mode_selection _ _ (refLib ℚ) emptyStore true 2 2).2.1 rfl).1,
   ((Resample.construct_mode_selection _ _ (refLib ℚ) emptyStore true 1 2).2.2
      (by norm_num)).2⟩

/-- C3: in both modes, the input-length word handed to the converter is the
bitwise complement of `inBufferLen` exactly when `lastFlag` is set and
`inBufferLen` unmodified otherwise; the converter decodes the sentinel back
to the pair (length, end-of-input); and on the reference converter an
end-of-input call flushes all internally buffered samples into the output
(given room), leaving nothing buffered. -/
theorem Resample.process_lastFlag_sentinel :
    (∀ n : Nat, rawInLen true n = comp64 n ∧ rawInLen false n = n)
    ∧ (∀ (b : Bool) (n : Nat), n < 2 ^ 63 → decodeIlen (rawInLen b n) = (n, b))
    ∧ (∀ (S : Type) (meth : Nat) (cr : Bool) (tr : List SoxrEvent) (f : ℚ)
        (inB : List S) (n : Nat) (b : Bool) (m : Nat),
        ∃ pre, (Resample.Process (spyLib S) ⟨meth, cr, some tr⟩ f inB n b m).1.mHandle
          = some (pre ++ [SoxrEvent.processCall (rawInLen b n) m]))
    ∧ (∀ (S : Type) (meth : Nat) (cr : Bool) (st : RefState S) (f : ℚ)
        (inB : List S) (m : Nat),
        inB.length < 2 ^ 63 → st.pending.length + inB.length ≤ m →
        (Resample.Process (refLib S) ⟨meth, cr, some st⟩ f inB inB.length true m).2.2
            = st.pending ++ inB
          ∧ ∃ st', (Resample.Process (refLib S) ⟨meth, cr, some st⟩
                      f inB inB.length true m).1.mHandle = some st'
              ∧ st'.pending = []) := by
  refine ⟨fun n => ⟨rfl, rfl⟩, decode_rawInLen, ?_, ?_⟩
  · intro S meth cr tr f inB n b m
    cases cr
    · exact ⟨tr ++ [SoxrEvent.setRatio (1 / f)],
        by simp [Resample.Process, spyLib]⟩
    · exact ⟨tr, by simp [Resample.Process, spyLib]⟩
  · intro S meth cr st f inB m hlen hroom
    have hdec : decodeIlen (rawInLen true inB.length) = (inB.length, true) :=
      decode_rawInLen true inB.length hlen
    have htot : (st.pending ++ inB).take m = st.pending ++ inB :=
      List.take_of_length_le (by simp; omega)
    have key : ∀ st0 : RefState S, st0.pending = st.pending →
        refProcess st0 inB (rawInLen true inB.length) m
          = ({ st0 with pending := [] }, inB.length, (st.pending ++ inB).length,
             st.pending ++ inB) := by
      intro st0 hp
      simp [refProcess, hdec, hp, htot]
    cases cr
    · refine ⟨by simp [Resample.Process, refLib, key], ?_⟩
      exact ⟨{ st with ioRatio := 1 / f, pending := [] },
        by simp [Resample.Process, refLib, key], rfl⟩
    · refine ⟨by simp [Resample.Process, refLib, key], ?_⟩
      exact ⟨{ st with pending := [] },
        by simp [Resample.Process, refLib, key], rfl⟩

/-- C3 witness: the sentinel round-trips at length 5, and a concrete
end-of-input call flushes the two buffered samples ahead of the new input. -/
theorem Resample.process_lastFlag_sentinel_witness :
    decodeIlen (rawInLen true 5) = (5, true)
    ∧ (Resample.Process (refLib ℚ) ⟨3, true, some ⟨1, ⟨4, 0⟩, [10, 20]⟩⟩
          0 [1, 2, 3] ([1, 2, 3] : List ℚ).length true 9).2.2 = [10, 20, 1, 2, 3] := by
  constructor
  · exact Resample.process_lastFlag_sentinel.2.1 true 5 (by norm_num)
  · have h := (Resample.process_lastFlag_sentinel.2.2.2 ℚ 3 true ⟨1, ⟨4, 0⟩, [10, 20]⟩
      0 [1, 2, 3] 9 (by simp) (by simp)).1
    simpa using h

/-- C4: the result of the underlying `soxr_create` call is what the
constructed object holds, so a creation failure is observable (`ok` is
`false`) before the first `Process` call; `Process` never changes that
observation; and `Process` never fails — on a failed handle it returns
consumed 0 and produced 0 and writes nothing, for every library. -/
theorem Resample.construct_failure_observable :
    (∀ (σ S : Type) (lib : SoxrLib σ S) (store : PrefsStore) (ub : Bool) (f1 f2 : ℚ),
        ((Resample.construct lib store ub f1 f2).ok = false ↔
          lib.create 1 f1 (if f1 = f2 then ⟨recipeOfMethod (Resample.SetMethod ub store), 0⟩
                           else ⟨SOXR_HQ, SOXR_VR⟩) = none))
    ∧ (∀ (σ S : Type) (lib : SoxrLib σ S) (r : Resample σ) (f : ℚ) (inB : List S)
        (n : Nat) (b : Bool) (m : Nat),
        (Resample.Process lib r f inB n b m).1.ok = r.ok)
    ∧ (∀ (σ S : Type) (lib : SoxrLib σ S) (r : Resample σ) (f : ℚ) (inB : List S)
        (n : Nat) (b : Bool) (m : Nat),
        r.ok = false → Resample.Process lib r f inB n b m = (r, (0, 0), [])) := by
  have hiff : ∀ (τ : Type) (o : Option τ), o.isSome = false ↔ o = none := by
    intro τ o; cases o <;> simp
  refine ⟨?_, ?_, ?_⟩
  · intro σ S lib store ub f1 f2
    by_cases h : f1 = f2 <;> simp [Resample.construct, Resample.ok, h, hiff]
  · intro σ S lib r f inB n b m
    cases hr : r.mHandle
    · simp [Resample.Process, Resample.ok, hr]
    · simp [Resample.Process, Resample.ok, hr]
      split <;> simp
  · intro σ S lib r f inB n b m hok
    have : r.mHandle = none := by
      cases hr : r.mHandle
      · rfl
      · rw [Resample.ok, hr] at hok; simp at hok
    simp [Resample.Process, this]

/-- C4 witness: a concrete failing creation (the reference library rejects a
zero output rate) is observable before the first Process call, and that
Process call returns consumed 0, produced 0. -/
theorem Resample.construct_failure_observable_witness :
    (Resample.construct (refLib ℚ) emptyStore true 0 0).ok = false
    ∧ Resample.Process (refLib ℚ) (Resample.construct (refLib ℚ) emptyStore true 0 0)
        1 [5] 1 false 4
      = (Resample.construct (refLib ℚ) emptyStore true 0 0, (0, 0), []) := by
  have hok : (Resample.construct (refLib ℚ) emptyStore true 0 0).ok = false :=
    (Resample.construct_failure_observable.1 _ _ (refLib ℚ) emptyStore true 0 0).2
      (by simp [refLib])
  exact ⟨hok, Resample.construct_failure_observable.2.2 _ _ (refLib ℚ) _ 1 [5] 1 false 4 hok⟩

/-- C5: under the documented soxr bounds contract, `Process` reports at most
`inBufferLen` consumed, at most `outBufferLen` produced, and writes at most
`outBufferLen` samples (never past the output buffer); on the reference
converter, fewer than `outBufferLen` samples are produced only when it was
the end of the stream (`lastFlag`) or all the supplied input was consumed. -/
theorem Resample.process_bounds :
    (∀ (σ S : Type) (lib : SoxrLib σ S), SoxrProcessBounds lib →
      ∀ (r : Resample σ) (f : ℚ) (inB : List S) (n : Nat) (b : Bool) (m : Nat),
        n < 2 ^ 63 →
        (Resample.Process lib r f inB n b m).2.1.1 ≤ n
        ∧ (Resample.Process lib r f inB n b m).2.1.2 ≤ m
        ∧ (Resample.Process lib r f inB n b m).2.2.length ≤ m)
    ∧ (∀ (S : Type) (meth : Nat) (cr : Bool) (st : RefState S) (f : ℚ)
        (inB : List S) (n : Nat) (b : Bool) (m : Nat), n < 2 ^ 63 →
        (Resample.Process (refLib S) ⟨meth, cr, some st⟩ f inB n b m).2.1.2 < m →
        b = true ∨ (Resample.Process (refLib S) ⟨meth, cr, some st⟩ f inB n b m).2.1.1
          = min n inB.length) := by
  constructor
  · intro σ S lib hc r f inB n b m hn
    cases hr : r.mHandle
    · simp [Resample.Process, hr]
    case some h =>
      have hdec : (decodeIlen (rawInLen b n)).1 = n := by rw [decode_rawInLen b n hn]
      have key : ∀ hh : σ,
          (lib.process hh inB (rawInLen b n) m).2.1 ≤ n
          ∧ (lib.process hh inB (rawInLen b n) m).2.2.1 ≤ m
          ∧ (lib.process hh inB (rawInLen b n) m).2.2.2.length ≤ m := by
        intro hh
        have hcp := hc hh inB (rawInLen b n) m
        refine ⟨?_, hcp.2.1, ?_⟩
        · have hle := hcp.1; rw [hdec] at hle; exact hle
        · rw [hcp.2.2]; exact hcp.2.1
      rcases hcr : r.mbWantConstRateResampling <;>
        simp only [Resample.Process, hr, hcr, if_true, if_false, Bool.false_eq_true] <;>
        exact key _
  · intro S meth cr st f inB n b m hn hlt
    right
    have hdec : decodeIlen (rawInLen b n) = (n, b) := decode_rawInLen b n hn
    cases cr <;>
      simp [Resample.Process, refLib, refProcess, hdec]

/-- C5 witness: with the reference library (which satisfies the bounds
contract) at a concrete call, consumed ≤ 2 and produced ≤ 3. -/
theorem Resample.process_bounds_witness :
    (Resample.Process (refLib ℚ) ⟨3, true, some ⟨1, ⟨4, 0⟩, [7]⟩⟩
        1 [1, 2] 2 false 3).2.1.1 ≤ 2
    ∧ (Resample.Process (refLib ℚ) ⟨3, true, some ⟨1, ⟨4, 0⟩, [7]⟩⟩
        1 [1, 2] 2 false 3).2.1.2 ≤ 3 := by
  have h := Resample.process_bounds.1 _ _ (refLib ℚ) (refLib_bounds ℚ)
    ⟨3, true, some ⟨1, ⟨4, 0⟩, [7]⟩⟩ 1 [1, 2] 2 false 3 (by norm_num)
  exact ⟨h.1, h.2.1⟩

/-- Overwrite one key of a preferences store (a later settings change). -/
def PrefsStore.write (store : PrefsStore) (k : String) (v : Nat) : PrefsStore :=
  fun q => if q = k then some v else store q

/-- C6: quality is resolved from exactly one of the two persisted settings —
the "best" setting when `useBestMethod` is true, the "fast" one otherwise —
so the resolved value depends only on the chosen setting's key; it is always
one of the four discrete values, with defaults Best Quality (3) and Medium
Quality (1); and the read happens once, at construction: the constructed
object is a function of the chosen setting's value at construction time
only, so later changes to the store cannot affect an existing instance. -/
theorem Resample.setMethod_resolution :
    (∀ store : PrefsStore,
        Resample.SetMethod true store = Resample.BestMethodSetting.ReadInt store
        ∧ Resample.SetMethod false store = Resample.FastMethodSetting.ReadInt store)
    ∧ (∀ (ub : Bool) (store store' : PrefsStore),
        store (if ub then bestMethodKey else fastMethodKey)
          = store' (if ub then bestMethodKey else fastMethodKey) →
        Resample.SetMethod ub store = Resample.SetMethod ub store')
    ∧ (∀ (ub : Bool) (store : PrefsStore), Resample.SetMethod ub store < numMethods)
    ∧ (Resample.SetMethod true emptyStore = bestMethodDefault
        ∧ Resample.SetMethod false emptyStore = fastMethodDefault)
    ∧ (∀ (σ S : Type) (lib : SoxrLib σ S) (ub : Bool) (store store' : PrefsStore)
        (f1 f2 : ℚ),
        Resample.SetMethod ub store = Resample.SetMethod ub store' →
        Resample.construct lib store ub f1 f2 = Resample.construct lib store' ub f1 f2) := by
  refine ⟨fun store => ⟨rfl, rfl⟩, ?_, ?_, ⟨rfl, rfl⟩, ?_⟩
  · intro ub store store' hkey
    cases ub <;>
      simp_all [Resample.SetMethod, EnumSetting.ReadInt,
        Resample.BestMethodSetting, Resample.FastMethodSetting]
  · intro ub store
    cases ub <;>
      · simp only [Resample.SetMethod, EnumSetting.ReadInt, Resample.BestMethodSetting,
          Resample.FastMethodSetting, if_true, if_false, Bool.false_eq_true]
        split
        · split
          · omega
          · simp [numMethods, bestMethodDefault, fastMethodDefault]
        · simp [numMethods, bestMethodDefault, fastMethodDefault]
  · intro σ S lib ub store store' f1 f2 hm
    simp [Resample.construct, hm]

/-- C6 witness: writing a new value into the "fast" setting does not change
what a best-quality construction produces (the other setting is irrelevant),
via the key-dependence and read-once parts applied concretely. -/
theorem Resample.setMethod_resolution_witness :
    Resample.SetMethod true (PrefsStore.write emptyStore fastMethodKey 0)
      = Resample.SetMethod true emptyStore
    ∧ Resample.construct (refLib ℚ) (PrefsStore.write emptyStore fastMethodKey 0) true 2 2
      = Resample.construct (refLib ℚ) emptyStore true 2 2 := by
  have hkeys : (PrefsStore.write emptyStore fastMethodKey 0) bestMethodKey
      = emptyStore bestMethodKey := by
    simp [PrefsStore.write, emptyStore, bestMethodKey, fastMethodKey]
  have h1 := Resample.setMethod_resolution.2.1 true
    (PrefsStore.write emptyStore fastMethodKey 0) emptyStore (by simpa using hkeys)
  exact ⟨h1, Resample.setMethod_resolution.2.2.2.2 _ _ (refLib ℚ) true _ emptyStore 2 2 h1⟩

/-- C10: with unequal bounds (variable-ratio mode) the quality selector and
both persisted settings are irrelevant to the converter created: it is
always created with the fixed high-quality variable-rate profile
(SOXR_HQ with SOXR_VR), for any store and any `useBestMethod`. -/
theorem Resample.variableMode_quality_fixed :
    ∀ (σ S : Type) (lib : SoxrLib σ S) (store store' : PrefsStore) (ub ub' : Bool)
      (f1 f2 : ℚ), f1 ≠ f2 →
      (Resample.construct lib store ub f1 f2).mHandle
          = lib.create 1 f1 ⟨SOXR_HQ, SOXR_VR⟩
      ∧ (Resample.construct lib store ub f1 f2).mHandle
          = (Resample.construct lib store' ub' f1 f2).mHandle := by
  intro σ S lib store store' ub ub' f1 f2 hne
  simp [Resample.construct, hne]

/-- C10 witness: concrete variable-ratio constructions with different quality
selectors and stores create the same fixed-profile converter. -/
theorem Resample.variableMode_quality_fixed_witness :
    (Resample.construct (refLib ℚ) emptyStore true 1 2).mHandle
        = (refLib ℚ).create 1 1 ⟨SOXR_HQ, SOXR_VR⟩
    ∧ (Resample.construct (refLib ℚ) emptyStore true 1 2).mHandle
        = (Resample.construct (refLib ℚ) (PrefsStore.write emptyStore bestMethodKey 0)
            false 1 2).mHandle :=
  Resample.variableMode_quality_fixed _ _ (refLib ℚ) emptyStore
    (PrefsStore.write emptyStore bestMethodKey 0) true false 1 2 (by norm_num)

/-! ## Mixer session model

Modelled from the spec: the Mixer implementation (Mix.cpp) is not under src —
Mix.h only declares the interface.  The model below follows §3 ("Mix session
time state") and §4.4 of the spec: a session holds `mT0`, `mT1`, the current
unwarped time `mTime` and the output rate; `Process(maxSamples)` produces at
most `maxSamples` frames, bounded by the frames remaining in the selected
range (sign-aware for the two directions), emits the source sampled at the
successive frame times, and advances `mTime` by `framesProduced / outRate`
(direction-aware); `Restart` resets `mTime` to `mT0`; `Reposition(t)`
clamps/sets `mTime` directly without altering `mT0`/`mT1`.  Times and rates
are `ℚ`; the per-frame sample is drawn from an abstract source function of
unwarped time. -/

/-- Modelled from the spec: mix session time state (spec §3, Mix.h:172-174). -/
structure MixerSession where
  mT0 : ℚ
  mT1 : ℚ
  mTime : ℚ
  mRate : ℚ
deriving DecidableEq, Repr

/-- The processing direction: +1 forward, -1 backward (spec §4.4 step 1,
"sign-aware"). -/
def MixerSession.dir (mx : MixerSession) : ℚ := if mx.mT0 ≤ mx.mT1 then 1 else -1

/-- Remaining selected time, nonnegative while `mTime` is inside the range. -/
def MixerSession.remainingTime (mx : MixerSession) : ℚ :=
  (mx.mT1 - mx.mTime) * mx.dir

/-- Whole output frames still to produce before the range is exhausted. -/
def MixerSession.framesLeft (mx : MixerSession) : Nat :=
  (⌊mx.remainingTime * mx.mRate⌋).toNat

/-- The session has fully produced the selected time range. -/
def MixerSession.exhausted (mx : MixerSession) : Bool :=
  decide (mx.framesLeft = 0)

/-- Modelled from the spec: `Mixer::Process(maxSamples)` (Mix.h:122-126,
spec §4.4): produce `min maxSamples framesLeft` frames, sampling the source
at the successive frame times, then advance `mTime` direction-aware by the
produced duration.  Returns the produced samples and the updated session. -/
def MixerSession.Process {S : Type} (mx : MixerSession) (src : ℚ → S)
    (maxSamples : Nat) : List S × MixerSession :=
  let n := min maxSamples mx.framesLeft
  ((List.range n).map fun i : Nat => src (mx.mTime + mx.dir * (i : ℚ) / mx.mRate),
   { mx with mTime := mx.mTime + mx.dir * (n : ℚ) / mx.mRate })

/-- Modelled from the spec: `Mixer::Restart` (Mix.h:128-130, spec §4.4):
reset `mTime` to `mT0`. -/
def MixerSession.Restart (mx : MixerSession) : MixerSession :=
  { mx with mTime := mx.mT0 }

/-- Modelled from the spec: `Mixer::Reposition(t)` (Mix.h:132-134, spec §3
and §4.4): set `mTime` directly, clamped into the selected range, without
altering `mT0`/`mT1`. -/
def MixerSession.Reposition (mx : MixerSession) (t : ℚ) : MixerSession :=
  { mx with mTime := max (min mx.mT0 mx.mT1) (min t (max mx.mT0 mx.mT1)) }

/-- The full frame count of the selected range (frames after a Restart). -/
def MixerSession.totalFrames (mx : MixerSession) : Nat :=
  mx.Restart.framesLeft

/-- Repeatedly call `Process src k` until it returns no samples (or fuel is
exhausted), concatenating the produced chunks. -/
def MixerSession.processChunks {S : Type} (src : ℚ → S) (k : Nat) :
    Nat → MixerSession → List S × MixerSession
  | 0, mx => ([], mx)
  | fuel + 1, mx =>
    let r := MixerSession.Process mx src k
    if r.1.length = 0 then ([], mx)
    else
      let rest := MixerSession.processChunks src k fuel r.2
      (r.1 ++ rest.1, rest.2)

/-- The invariant of spec §3: `mTime` lies in the closed selected range. -/
def MixerSession.timeInRange (mx : MixerSession) : Prop :=
  min mx.mT0 mx.mT1 ≤ mx.mTime ∧ mx.mTime ≤ max mx.mT0 mx.mT1

theorem MixerSession.dir_sq (mx : MixerSession) : mx.dir * mx.dir = 1 := by
  unfold MixerSession.dir; split <;> norm_num

theorem MixerSession.cast_le_of_le_framesLeft (mx : MixerSession) (n : Nat)
    (h : n ≤ mx.framesLeft) (h0 : 0 < n) :
    (n : ℚ) ≤ mx.remainingTime * mx.mRate := by
  have h1 : (n : ℤ) ≤ ⌊mx.remainingTime * mx.mRate⌋ := by
    unfold MixerSession.framesLeft at h
    omega
  have h2 := Int.le_floor.mp h1
  push_cast at h2
  exact h2

theorem MixerSession.length_process {S : Type} (mx : MixerSession) (src : ℚ → S)
    (k : Nat) : (mx.Process src k).1.length = min k mx.framesLeft := by
  show ((List.range (min k mx.framesLeft)).map
      fun i : Nat => src (mx.mTime + mx.dir * (i : ℚ) / mx.mRate)).length
    = min k mx.framesLeft
  rw [List.length_map, List.length_range]

theorem MixerSession.framesLeft_process {S : Type} (mx : MixerSession) (src : ℚ → S)
    (k : Nat) (hr : 0 < mx.mRate) :
    (mx.Process src k).2.framesLeft = mx.framesLeft - min k mx.framesLeft := by
  have hd := mx.dir_sq
  have hrne : mx.mRate ≠ 0 := ne_of_gt hr
  have hn : min k mx.framesLeft ≤ mx.framesLeft := Nat.min_le_right _ _
  have harg : (mx.Process src k).2.remainingTime * (mx.Process src k).2.mRate
      = mx.remainingTime * mx.mRate - ((min k mx.framesLeft : Nat) : ℚ) := by
    show (mx.mT1 - (mx.mTime + mx.dir * ((min k mx.framesLeft : Nat) : ℚ) / mx.mRate))
          * mx.dir * mx.mRate
        = (mx.mT1 - mx.mTime) * mx.dir * mx.mRate - ((min k mx.framesLeft : Nat) : ℚ)
    have expand : (mx.mT1 - (mx.mTime + mx.dir * ((min k mx.framesLeft : Nat) : ℚ)
            / mx.mRate)) * mx.dir * mx.mRate
        = (mx.mT1 - mx.mTime) * mx.dir * mx.mRate
          - mx.dir * mx.dir * (((min k mx.framesLeft : Nat) : ℚ) / mx.mRate * mx.mRate) := by
      ring
    rw [expand, hd, div_mul_cancel₀ _ hrne, one_mul]
  have hfloor : ⌊(mx.Process src k).2.remainingTime * (mx.Process src k).2.mRate⌋
      = ⌊mx.remainingTime * mx.mRate⌋ - ((min k mx.framesLeft : Nat) : ℤ) := by
    rw [harg]
    exact_mod_cast Int.floor_sub_nat (mx.remainingTime * mx.mRate) (min k mx.framesLeft)
  show (⌊(mx.Process src k).2.remainingTime * (mx.Process src k).2.mRate⌋).toNat = _
  rw [hfloor]
  unfold MixerSession.framesLeft at hn ⊢
  omega

theorem MixerSession.process_split {S : Type} (mx : MixerSession) (src : ℚ → S)
    (a b : Nat) (hr : 0 < mx.mRate) (hab : a + b ≤ mx.framesLeft) :
    (mx.Process src (a + b)).1
      = (mx.Process src a).1 ++ ((mx.Process src a).2.Process src b).1
    ∧ (mx.Process src (a + b)).2 = ((mx.Process src a).2.Process src b).2 := by
  have hminab : min (a + b) mx.framesLeft = a + b := Nat.min_eq_left hab
  have hmina : min a mx.framesLeft = a := Nat.min_eq_left (by omega)
  have hflA : (mx.Process src a).2.framesLeft = mx.framesLeft - a := by
    rw [MixerSession.framesLeft_process mx src a hr, hmina]
  have hminb : min b (mx.Process src a).2.framesLeft = b := by
    rw [hflA]; exact Nat.min_eq_left (by omega)
  have hT1 : (mx.Process src a).2.mTime = mx.mTime + mx.dir * (a : ℚ) / mx.mRate := by
    show mx.mTime + mx.dir * ((min a mx.framesLeft : Nat) : ℚ) / mx.mRate = _
    rw [hmina]
  have hdir1 : (mx.Process src a).2.dir = mx.dir := rfl
  have hrate1 : (mx.Process src a).2.mRate = mx.mRate := rfl
  constructor
  · show ((List.range (min (a + b) mx.framesLeft)).map
        fun i : Nat => src (mx.mTime + mx.dir * (i : ℚ) / mx.mRate))
      = ((List.range (min a mx.framesLeft)).map
          fun i : Nat => src (mx.mTime + mx.dir * (i : ℚ) / mx.mRate))
        ++ ((List.range (min b (mx.Process src a).2.framesLeft)).map
            fun i : Nat => src ((mx.Process src a).2.mTime
              + (mx.Process src a).2.dir * (i : ℚ) / (mx.Process src a).2.mRate))
    rw [hminab, hmina, hminb, List.range_add, List.map_append, List.map_map]
    congr 1
    apply List.map_congr_left
    intro i hi
    simp only [Function.comp_apply, hT1, hdir1, hrate1]
    congr 1
    push_cast
    ring
  · show ({ mx with mTime := mx.mTime
          + mx.dir * ((min (a + b) mx.framesLeft : Nat) : ℚ) / mx.mRate } : MixerSession)
      = { (mx.Process src a).2 with mTime := (mx.Process src a).2.mTime
            + (mx.Process src a).2.dir * ((min b (mx.Process src a).2.framesLeft : Nat) : ℚ)
              / (mx.Process src a).2.mRate }
    rw [hminab, hminb]
    simp only [hT1, hdir1, hrate1]
    simp only [MixerSession.mk.injEq, and_true, true_and]
    repeat' apply And.intro
    all_goals first
    | rfl
    | trivial
    | (push_cast; ring)

theorem MixerSession.processChunks_succ {S : Type} (src : ℚ → S) (k fuel : Nat)
    (mx : MixerSession) :
    MixerSession.processChunks src k (fuel + 1) mx
      = if (mx.Process src k).1.length = 0 then ([], mx)
        else ((mx.Process src k).1
              ++ (MixerSession.processChunks src k fuel (mx.Process src k).2).1,
              (MixerSession.processChunks src k fuel (mx.Process src k).2).2) := rfl

theorem MixerSession.processChunks_eq {S : Type} (src : ℚ → S) (k : Nat) (hk : 1 ≤ k) :
    ∀ (fuel : Nat) (mx : MixerSession), 0 < mx.mRate → mx.framesLeft ≤ fuel →
      (MixerSession.processChunks src k fuel mx).1
        = (mx.Process src mx.framesLeft).1 := by
  intro fuel
  induction fuel with
  | zero =>
    intro mx hr hf
    have h0 : mx.framesLeft = 0 := Nat.le_zero.mp hf
    have hlen : (mx.Process src mx.framesLeft).1.length = 0 := by
      rw [MixerSession.length_process, h0, Nat.min_zero]
    exact (List.eq_nil_of_length_eq_zero hlen).symm
  | succ fuel ih =>
    intro mx hr hf
    by_cases h0 : mx.framesLeft = 0
    · have hlen : (mx.Process src k).1.length = 0 := by
        rw [MixerSession.length_process, h0, Nat.min_zero]
      have hlen2 : (mx.Process src mx.framesLeft).1.length = 0 := by
        rw [MixerSession.length_process, h0, Nat.min_zero]
      rw [MixerSession.processChunks_succ, if_pos hlen]
      exact (List.eq_nil_of_length_eq_zero hlen2).symm
    · have hn1 : 1 ≤ min k mx.framesLeft := Nat.le_min.mpr ⟨hk, by omega⟩
      have hlen : (mx.Process src k).1.length = min k mx.framesLeft :=
        MixerSession.length_process mx src k
      have hmm : min k mx.framesLeft = min (min k mx.framesLeft) mx.framesLeft :=
        (Nat.min_eq_left (Nat.min_le_right _ _)).symm
      have hkn : mx.Process src k = mx.Process src (min k mx.framesLeft) := by
        unfold MixerSession.Process
        rw [← hmm]
      have hfl' : (mx.Process src k).2.framesLeft
          = mx.framesLeft - min k mx.framesLeft :=
        MixerSession.framesLeft_process mx src k hr
      have hih := ih (mx.Process src k).2 hr (by rw [hfl']; omega)
      rw [hfl'] at hih
      obtain ⟨hsplit1, hsplit2⟩ := MixerSession.process_split mx src
        (min k mx.framesLeft) (mx.framesLeft - min k mx.framesLeft) hr (by omega)
      have hsum : min k mx.framesLeft + (mx.framesLeft - min k mx.framesLeft)
          = mx.framesLeft := by omega
      rw [hsum] at hsplit1
      rw [MixerSession.processChunks_succ, if_neg (by rw [hlen]; omega)]
      show (mx.Process src k).1
          ++ (MixerSession.processChunks src k fuel (mx.Process src k).2).1
        = (mx.Process src mx.framesLeft).1
      rw [hih, hkn]
      exact hsplit1.symm

/-- C7 (spec-modelled): for a positive frame request, Process returns no
samples exactly when the selected time range has been fully produced; such a
return is normal termination, not an error — the session is left unchanged,
so every subsequent Process call also returns nothing — until a Restart
(which restores the full range) or a Reposition back inside the range makes
the session productive again. -/
theorem MixerSession.process_zero_iff_exhausted :
    (∀ (S : Type) (mx : MixerSession) (src : ℚ → S) (k : Nat), 0 < k →
        ((mx.Process src k).1 = [] ↔ mx.exhausted = true))
    ∧ (∀ (S : Type) (mx : MixerSession) (src : ℚ → S) (k : Nat),
        (mx.Process src k).1 = [] → (mx.Process src k).2 = mx)
    ∧ (∀ mx : MixerSession, mx.Restart.framesLeft = mx.totalFrames
        ∧ (0 < mx.totalFrames → mx.Restart.exhausted = false))
    ∧ (∀ (mx : MixerSession) (t : ℚ), mx.mT0 ≤ t → t ≤ mx.mT1 →
        1 ≤ (mx.mT1 - t) * mx.mRate → (mx.Reposition t).exhausted = false) := by
  refine ⟨?_, ?_, ?_, ?_⟩
  · intro S mx src k hk
    constructor
    · intro hnil
      have hlen := congrArg List.length hnil
      rw [MixerSession.length_process] at hlen
      simp only [List.length_nil] at hlen
      unfold MixerSession.exhausted
      simp only [decide_eq_true_eq]
      omega
    · intro hex
      have hfl : mx.framesLeft = 0 := by
        unfold MixerSession.exhausted at hex
        simpa using hex
      have hlen : (mx.Process src k).1.length = 0 := by
        rw [MixerSession.length_process, hfl, Nat.min_zero]
      exact List.eq_nil_of_length_eq_zero hlen
  · intro S mx src k hnil
    have hlen := congrArg List.length hnil
    rw [MixerSession.length_process] at hlen
    simp only [List.length_nil] at hlen
    show ({ mx with mTime := mx.mTime
        + mx.dir * ((min k mx.framesLeft : Nat) : ℚ) / mx.mRate } : MixerSession) = mx
    rw [hlen]
    simp
  · intro mx
    refine ⟨rfl, ?_⟩
    intro hpos
    unfold MixerSession.exhausted
    simp only [decide_eq_false_iff_not]
    unfold MixerSession.totalFrames at hpos
    omega
  · intro mx t h0 h1 hfr
    have hT : mx.mT0 ≤ mx.mT1 := le_trans h0 h1
    have hclamp : (mx.Reposition t).mTime = t := by
      show max (min mx.mT0 mx.mT1) (min t (max mx.mT0 mx.mT1)) = t
      rw [min_eq_left hT, max_eq_right hT, min_eq_left h1, max_eq_right h0]
    have hrem : (mx.Reposition t).remainingTime * (mx.Reposition t).mRate
        = (mx.mT1 - t) * mx.mRate := by
      unfold MixerSession.remainingTime
      rw [hclamp]
      have hd : (mx.Reposition t).dir = 1 := by
        unfold MixerSession.dir
        show (if mx.mT0 ≤ mx.mT1 then (1 : ℚ) else -1) = 1
        rw [if_pos hT]
      rw [hd]
      show (mx.mT1 - t) * 1 * mx.mRate = (mx.mT1 - t) * mx.mRate
      ring
    unfold MixerSession.exhausted
    simp only [decide_eq_false_iff_not]
    unfold MixerSession.framesLeft
    rw [hrem]
    have hint : (1 : ℤ) ≤ ⌊(mx.mT1 - t) * mx.mRate⌋ := by
      rw [Int.le_floor]
      exact_mod_cast hfr
    omega

/-- C7 witness: a fresh unexhausted session (range 0..1 s at rate 2)
produces samples on a Process call of one frame. -/
theorem MixerSession.process_zero_iff_exhausted_witness :
    ((⟨0, 1, 0, 2⟩ : MixerSession).Process (fun t => t) 1).1 ≠ [] := by
  intro hnil
  have hex := (MixerSession.process_zero_iff_exhausted.1 ℚ ⟨0, 1, 0, 2⟩
    (fun t => t) 1 (by norm_num)).mp hnil
  unfold MixerSession.exhausted MixerSession.framesLeft
    MixerSession.remainingTime MixerSession.dir at hex
  norm_num [Int.floor_ofNat] at hex

/-- C8 (spec-modelled): processing keeps the current unwarped time inside
the closed interval between `mT0` and `mT1` (in either direction) and never
moves the endpoints; Restart resets `mTime` to `mT0`; Reposition clamps the
requested time into that interval (setting it verbatim when already inside)
without altering `mT0` or `mT1`. -/
theorem MixerSession.time_invariant :
    (∀ (S : Type) (mx : MixerSession) (src : ℚ → S) (k : Nat),
        0 < mx.mRate → mx.timeInRange →
        (mx.Process src k).2.timeInRange
        ∧ (mx.Process src k).2.mT0 = mx.mT0 ∧ (mx.Process src k).2.mT1 = mx.mT1)
    ∧ (∀ mx : MixerSession, mx.Restart.mTime = mx.mT0 ∧ mx.Restart.timeInRange
        ∧ mx.Restart.mT0 = mx.mT0 ∧ mx.Restart.mT1 = mx.mT1)
    ∧ (∀ (mx : MixerSession) (t : ℚ),
        (mx.Reposition t).mT0 = mx.mT0 ∧ (mx.Reposition t).mT1 = mx.mT1
        ∧ (mx.Reposition t).timeInRange
        ∧ (min mx.mT0 mx.mT1 ≤ t → t ≤ max mx.mT0 mx.mT1 →
            (mx.Reposition t).mTime = t)) := by
  refine ⟨?_, ?_, ?_⟩
  · intro S mx src k hr hin
    obtain ⟨hlo, hhi⟩ := hin
    refine ⟨?_, rfl, rfl⟩
    show min mx.mT0 mx.mT1 ≤ mx.mTime
        + mx.dir * ((min k mx.framesLeft : Nat) : ℚ) / mx.mRate
      ∧ mx.mTime + mx.dir * ((min k mx.framesLeft : Nat) : ℚ) / mx.mRate
        ≤ max mx.mT0 mx.mT1
    rcases Nat.eq_zero_or_pos (min k mx.framesLeft) with h0 | h0
    · rw [h0]
      simp only [Nat.cast_zero, mul_zero, zero_div, add_zero]
      exact ⟨hlo, hhi⟩
    · have hcast : ((min k mx.framesLeft : Nat) : ℚ) ≤ mx.remainingTime * mx.mRate :=
        mx.cast_le_of_le_framesLeft _ (Nat.min_le_right _ _) h0
      have hnn : (0 : ℚ) ≤ ((min k mx.framesLeft : Nat) : ℚ) := Nat.cast_nonneg _
      have hq : (0 : ℚ) ≤ ((min k mx.framesLeft : Nat) : ℚ) / mx.mRate :=
        div_nonneg hnn (le_of_lt hr)
      unfold MixerSession.remainingTime at hcast
      rcases le_or_lt mx.mT0 mx.mT1 with hdir | hdir
      · have hd : mx.dir = 1 := by unfold MixerSession.dir; rw [if_pos hdir]
        rw [hd] at hcast ⊢
        rw [mul_one] at hcast
        rw [min_eq_left hdir, max_eq_right hdir]
        have hone : (1 : ℚ) * ((min k mx.framesLeft : Nat) : ℚ) / mx.mRate
            = ((min k mx.framesLeft : Nat) : ℚ) / mx.mRate := by ring
        rw [hone]
        have hle : ((min k mx.framesLeft : Nat) : ℚ) / mx.mRate ≤ mx.mT1 - mx.mTime := by
          rw [div_le_iff₀ hr]
          exact hcast
        rw [min_eq_left hdir] at hlo
        rw [max_eq_right hdir] at hhi
        constructor
        · linarith
        · linarith
      · have hd : mx.dir = -1 := by
          unfold MixerSession.dir; rw [if_neg (not_le.mpr hdir)]
        rw [hd] at hcast ⊢
        have hflip : (mx.mT1 - mx.mTime) * (-1) * mx.mRate
            = (mx.mTime - mx.mT1) * mx.mRate := by ring
        rw [hflip] at hcast
        rw [min_eq_right (le_of_lt hdir), max_eq_left (le_of_lt hdir)]
        have hneg : (-1 : ℚ) * ((min k mx.framesLeft : Nat) : ℚ) / mx.mRate
            = -(((min k mx.framesLeft : Nat) : ℚ) / mx.mRate) := by ring
        rw [hneg]
        have hle : ((min k mx.framesLeft : Nat) : ℚ) / mx.mRate ≤ mx.mTime - mx.mT1 := by
          rw [div_le_iff₀ hr]
          exact hcast
        rw [min_eq_right (le_of_lt hdir)] at hlo
        rw [max_eq_left (le_of_lt hdir)] at hhi
        constructor
        · linarith
        · linarith
  · intro mx
    exact ⟨rfl, ⟨min_le_left _ _, le_max_left _ _⟩, rfl, rfl⟩
  · intro mx t
    refine ⟨rfl, rfl, ⟨le_max_left _ _, ?_⟩, ?_⟩
    · exact max_le (le_trans (min_le_left _ _) (le_max_left _ _)) (min_le_right _ _)
    · intro hlo hhi
      show max (min mx.mT0 mx.mT1) (min t (max mx.mT0 mx.mT1)) = t
      rw [min_eq_left hhi, max_eq_right hlo]

/-- C8 witness: a session at time 1/2 inside the range 0..1 stays inside the
range after a Process call. -/
theorem MixerSession.time_invariant_witness :
    (⟨0, 1, 1/2, 2⟩ : MixerSession).timeInRange
    ∧ ((⟨0, 1, 1/2, 2⟩ : MixerSession).Process (fun t => t) 5).2.timeInRange := by
  have hin : (⟨0, 1, 1/2, 2⟩ : MixerSession).timeInRange := by
    constructor
    · show min (0 : ℚ) 1 ≤ 1/2
      rw [min_eq_left (by norm_num : (0:ℚ) ≤ 1)]
      norm_num
    · show (1/2 : ℚ) ≤ max 0 1
      rw [max_eq_right (by norm_num : (0:ℚ) ≤ 1)]
      norm_num
  exact ⟨hin, (MixerSession.time_invariant.1 ℚ ⟨0, 1, 1/2, 2⟩ (fun t => t) 5
    (by norm_num) hin).1⟩

/-- C9 (spec-modelled): restart-then-replay idempotence — after a Restart,
repeatedly calling Process with any fixed positive chunk size until
exhaustion produces exactly the sample sequence of a single uninterrupted
Process call spanning the range's total frame count. -/
theorem MixerSession.chunked_eq_single :
    ∀ (S : Type) (mx : MixerSession) (src : ℚ → S) (k fuel : Nat),
      0 < mx.mRate → 1 ≤ k → mx.totalFrames ≤ fuel →
      (MixerSession.processChunks src k fuel mx.Restart).1
        = (mx.Restart.Process src mx.totalFrames).1 := by
  intro S mx src k fuel hr hk hf
  exact MixerSession.processChunks_eq src k hk fuel mx.Restart hr hf

/-- C9 witness: a 1-second range at rate 2 (two total frames), replayed in
chunks of one frame, equals the single two-frame call. -/
theorem MixerSession.chunked_eq_single_witness :
    (MixerSession.processChunks (fun t => t) 1 2 (⟨0, 1, 7, 2⟩ : MixerSession).Restart).1
      = ((⟨0, 1, 7, 2⟩ : MixerSession).Restart.Process (fun t => t)
          (⟨0, 1, 7, 2⟩ : MixerSession).totalFrames).1 := by
  apply MixerSession.chunked_eq_single ℚ ⟨0, 1, 7, 2⟩ (fun t => t) 1 2
  · norm_num
  · norm_num
  · show (⟨0, 1, 7, 2⟩ : MixerSession).Restart.framesLeft ≤ 2
    unfold MixerSession.framesLeft MixerSession.remainingTime MixerSession.dir
      MixerSession.Restart
    norm_num [Int.floor_ofNat]
